import Mathlib

/-!
Verification of `new_database_maker.py` (riichard/data-fetching).

The script is a linear ETL batch job: it loads a configuration, computes the
list of needed signal names, splits the configured shot list into batches,
and for each batch fetches signals through the external toksearch pipeline,
applies per-record transform steps, and persists the results into a
hierarchical HDF5 file keyed by shot number.

This file gives a shallow embedding, over exact rationals, of the pure
control and data-shaping logic of the script: the association-list model of
the HDF5 file, the preamble that creates or checks the shared "times" and
"spatial_coordinates" datasets, the batching of the shot list, the
needed-signals list, the per-record transform steps change_timebase,
add_nb_info and add_psin, the crash-signature check with its relaunch
arguments, and the per-shot write loop.  External services (toksearch,
MDSplus, the SQL database, numpy resampling helpers) are modelled as opaque
environments, since the script only wires them together.
-/

namespace DBMaker

/-! ### Association lists: Python dicts and h5py files/groups -/

/-- Lookup in an association list; models Python dict / h5py key access. -/
def fLookup {β : Type} (k : String) : List (String × β) → Option β
  | [] => none
  | (k₂, v) :: t => if k₂ = k then some v else fLookup k t

/-- Delete every binding of a key; models `del d[k]`. -/
def delKey {β : Type} (k : String) : List (String × β) → List (String × β)
  | [] => []
  | (k₂, v) :: t => if k₂ = k then delKey k t else (k₂, v) :: delKey k t

/-- Assignment `d[k] = v`: any old binding is removed, the new one appended. -/
def setKey {β : Type} (k : String) (v : β) (l : List (String × β)) :
    List (String × β) :=
  delKey k l ++ [(k, v)]

/-! ### The shared grids (lines 127 and 144 of the script) -/

/-- Modelled from the spec: length of `numpy.arange(tmin, tmax, step)` for a
positive step, namely `ceil((tmax - tmin) / step)` clamped at zero, computed
on integers with `Int.fdiv`.  numpy itself is an external library. -/
def arangeLen (tmin tmax step : ℚ) : ℕ :=
  if 0 < step.num then
    (((tmax - tmin).num * (step.den : ℤ) +
        (((tmax - tmin).den : ℤ) * step.num - 1)).fdiv
      (((tmax - tmin).den : ℤ) * step.num)).toNat
  else 0

/-- Modelled from the spec: `numpy.arange(tmin, tmax, step)` - the values
`tmin, tmin + step, ...` strictly below `tmax`. -/
def np_arange (tmin tmax step : ℚ) : List ℚ :=
  (List.range (arangeLen tmin tmax step)).map (fun k => tmin + k * step)

/-- Modelled from the spec: `numpy.linspace(a, b, n)` - `n` evenly spaced
points from `a` to `b` inclusive. -/
def np_linspace (a b : ℚ) (n : ℕ) : List ℚ :=
  if n = 1 then [a]
  else (List.range n).map (fun i => a + (b - a) * i / ((n : ℚ) - 1))

/-- Line 144: `standard_times = np.arange(tmin, tmax, time_step)`. -/
def standard_times (tmin tmax step : ℚ) : List ℚ := np_arange tmin tmax step

/-- Line 127: `standard_x = np.linspace(0, 1, num_x_points)`. -/
def standard_x (nxp : ℕ) : List ℚ := np_linspace 0 1 nxp

/-- A top-level or in-group entry of the HDF5 output file: a dataset of
values, or a (per-shot) group of named datasets. -/
inductive H5Entry where
  | ds (xs : List ℚ)
  | grp (g : List (String × List ℚ))
deriving DecidableEq

/-- The output file: named top-level entries. -/
abbrev H5File := List (String × H5Entry)

/-- Writing the shared "spatial_coordinates" dataset (lines 150-153): check
an existing dataset against the configured grid (AssertionError on
mismatch), else create it. -/
def preambleSpatial (sx : List ℚ) (file : H5File) : Except Unit H5File :=
  match fLookup "spatial_coordinates" file with
  | some (H5Entry.ds w) => if w = sx then Except.ok file else Except.error ()
  | some (H5Entry.grp _) => Except.error ()
  | none => Except.ok (setKey "spatial_coordinates" (H5Entry.ds sx) file)

/-- The preamble on the output file (lines 144-153): create or check the
shared "times" and "spatial_coordinates" datasets; a mismatch with an
existing dataset raises an AssertionError, modelled as `Except.error`. -/
def preamble (tmin tmax step : ℚ) (nxp : ℕ) (file : H5File) :
    Except Unit H5File :=
  let st := standard_times tmin tmax step
  match fLookup "times" file with
  | some (H5Entry.ds v) =>
      if v = st then preambleSpatial (standard_x nxp) file
      else Except.error ()
  | some (H5Entry.grp _) => Except.error ()
  | none => preambleSpatial (standard_x nxp) (setKey "times" (H5Entry.ds st) file)

/-! ### The shot list and its batches (lines 120-124 and 161-169) -/

/-- Line 124: `all_shots = sorted(all_shots, reverse=True)`. -/
def all_shots (shots : List ℤ) : List ℤ :=
  List.insertionSort (fun a b => b ≤ a) shots

/-- Lines 162-165: `num_files = int(n / m)`, plus one if `n % m != 0`. -/
def num_files (n m : ℕ) : ℕ :=
  n / m + (if n % m ≠ 0 then 1 else 0)

/-- Lines 167-169: the batches, slices of length `m` of the sorted list. -/
def subshots (shots : List ℤ) (m : ℕ) : List (List ℤ) :=
  (List.range (num_files (all_shots shots).length m)).map
    (fun i => ((all_shots shots).drop (i * m)).take m)

/-! ### The overwrite pass (lines 155-159) -/

/-- One step of the overwrite pass (lines 157-159): delete the entry named
`str(shot)` if present. -/
def delShotStep (f : H5File) (s : ℤ) : H5File :=
  if (fLookup (toString s) f).isSome then delKey (toString s) f else f

/-- Lines 155-159: when overwrite_shots is set, delete the entry named
`str(shot)` for every configured shot that is present in the file. -/
def overwritePass (overwrite : Bool) (shots : List ℤ) (file : H5File) :
    H5File :=
  if overwrite then shots.foldl delShotStep file else file

/-- A concrete file for exercising the overwrite pass. -/
def fileOW : H5File :=
  [("times", H5Entry.ds []), ("5", H5Entry.grp []), ("keep", H5Entry.grp [])]

/-! ### The needed-signals list (lines 68-109) -/

/-- The configuration fields under cfg\x7b'data'\x7d that determine the
needed-signals list (field order follows first use in the script). -/
structure SigConfig where
  scalar_sig_names : List String
  nb_sig_names : List String
  stability_sig_names : List String
  gas_cal_sig_names : List String
  pcs_sig_names : List String
  aot_scalar_sig_names : List String
  aot_prof_sig_names : List String
  efit_types : List String
  efit_profile_sig_names : List String
  efit_scalar_sig_names : List String
  include_psirz : Bool
  include_rhovn : Bool
  include_radiation : Bool
  include_full_ech_data : Bool
  include_full_nb_data : Bool
  cer_sig_names : List String
  thomson_sig_names : List String
  trial_fits : List String
  zipfit_sig_names : List String

/-- Lines 69-75: the seven free-form configuration lists, in script order. -/
def baseSigs (c : SigConfig) : List String :=
  c.scalar_sig_names ++ c.nb_sig_names ++ c.stability_sig_names ++
    c.gas_cal_sig_names ++ c.pcs_sig_names ++ c.aot_scalar_sig_names ++
    c.aot_prof_sig_names

/-- Lines 76-77: "aot_prof_rho" whenever AOT profile signals are wanted. -/
def aotRhoSigs (c : SigConfig) : List String :=
  if c.aot_prof_sig_names.length > 0 then ["aot_prof_rho"] else []

/-- Lines 78-80: `sig_efit` names for every efit type. -/
def efitSigs (c : SigConfig) : List String :=
  c.efit_types.flatMap (fun e =>
    c.efit_profile_sig_names.map (fun s => s ++ "_" ++ e) ++
      c.efit_scalar_sig_names.map (fun s => s ++ "_" ++ e))

/-- Lines 81-82. -/
def psirzSigs (c : SigConfig) : List String :=
  if c.include_psirz then ["psirz", "psirz_r", "psirz_z"] else []

/-- Lines 83-84. -/
def rhovnSigs (c : SigConfig) : List String :=
  if c.include_rhovn then ["rhovn"] else []

/-- Lines 85-89: three entries per CER signal; the uncertainty entry is
commented out in the script ("no real uncertainty for CER"). -/
def cerSigs (c : SigConfig) : List String :=
  c.cer_sig_names.flatMap (fun s =>
    ["cer_" ++ s ++ "_raw_1d", "cer_" ++ s ++ "_psi_raw_1d",
      "cer_" ++ s ++ "_r_raw_1d"])

/-- Lines 90-93: three entries per Thomson signal. -/
def thomsonSigs (c : SigConfig) : List String :=
  c.thomson_sig_names.flatMap (fun s =>
    ["thomson_" ++ s ++ "_raw_1d", "thomson_" ++ s ++ "_uncertainty_raw_1d",
      "thomson_" ++ s ++ "_psi_raw_1d"])

/-- Lines 94-99: bolometry channel and summary names. -/
def radiationSigs : List String :=
  (List.range' 1 24).flatMap
      (fun i => ["pradL" ++ toString i, "pradU" ++ toString i]) ++
    ["pradKAPPA", "pradPRAD_DIVL", "pradPRAD_DIVU", "pradPRAD_TOT"]

/-- Lines 94-99, guarded. -/
def radSigs (c : SigConfig) : List String :=
  if c.include_radiation then radiationSigs else []

/-- Lines 100-102. -/
def echSigs (c : SigConfig) : List String :=
  if c.include_full_ech_data then
    ["ech_names", "ech_frequency", "ech_R", "ech_Z", "ech_pwr", "ech_aziang",
      "ech_polang", "ech_pwr_total"]
  else []

/-- Lines 103-104. -/
def nbSigs (c : SigConfig) : List String :=
  if c.include_full_nb_data then
    ["nb_pinj", "nb_tinj", "nb_vinj", "nb_vinj_scalar", "nb_210_rtan",
      "nb_150_tilt"]
  else []

/-- Lines 105-107: trial-fit entries for CER and Thomson signals. -/
def trialSigs (c : SigConfig) : List String :=
  c.trial_fits.flatMap (fun tf =>
    c.cer_sig_names.map (fun s => "cer_" ++ s ++ "_" ++ tf) ++
      c.thomson_sig_names.map (fun s => "thomson_" ++ s ++ "_" ++ tf))

/-- Lines 108-109. -/
def zipfitSigs (c : SigConfig) : List String :=
  c.zipfit_sig_names.map (fun s => "zipfit_" ++ s ++ "_rho") ++
    c.zipfit_sig_names.map (fun s => "zipfit_" ++ s ++ "_psi")

/-- Lines 68-109: the full needed-signals list, in script order. -/
def needed_sigs (c : SigConfig) : List String :=
  baseSigs c ++ aotRhoSigs c ++ efitSigs c ++ psirzSigs c ++ rhovnSigs c ++
    cerSigs c ++ thomsonSigs c ++ radSigs c ++ echSigs c ++ nbSigs c ++
    trialSigs c ++ zipfitSigs c

/-! ### The in-pipeline record and the per-record transforms -/

/-- A Python value held in a pipeline record: None, numpy nan, an array,
a fetched signal dict with "data" and "times", or a list being built. -/
inductive PyVal where
  | pynone
  | nanV
  | arr (xs : List ℚ)
  | dct (dat : PyVal) (times : List ℚ)
  | lstV (xs : List PyVal)

/-- A pipeline record: Python dict from key to value. -/
abbrev RecMap := List (String × PyVal)

/-- The smoothing function handed to standardize_time: `np.mean`, or the
`stats.mode`-based `get_mode` (lines 566-570). -/
inductive Smooth where
  | mean
  | mode
deriving DecidableEq

/-- The opaque external helpers used by the transform steps. -/
structure TEnv where
  /-- Modelled from the spec: the resampling helper standardize_time of
  transport_helpers (a repository file not under src/); an opaque resampler
  onto the standard grid that may fail on malformed input. -/
  standardize : List ℚ → List ℚ → List ℚ → Smooth → Option (List ℚ)
  /-- Modelled from the spec: standardize_time invoked with its default
  smoothing function (calls that pass no numpy_smoothing_fxn). -/
  standardizeDefault : List ℚ → List ℚ → List ℚ → Option (List ℚ)
  /-- Modelled from the spec: the modal_sig_names table of database_settings
  (a repository file not under src/). -/
  modal : List String

/-- Python `str.casefold`, modelled as ASCII lowercasing. -/
def casefold (s : String) : String := s.map Char.toLower

/-- Lines 566-570: `np.mean` unless the casefolded name is modal. -/
def smoothOf (E : TEnv) (sig : String) : Smooth :=
  if casefold sig ∈ E.modal then Smooth.mode else Smooth.mean

/-- Lines 565-574, the body of the try: read `record[sig_full]` and
`record["standard_time"]` and resample.  `none` is any exception: a missing
key, a None or malformed fetched entry, or a failure inside
standardize_time. -/
def tryResample (E : TEnv) (r : RecMap) (sig : String) : Option (List ℚ) :=
  match fLookup (sig ++ "_full") r with
  | some (PyVal.dct (PyVal.arr d) ts) =>
      match fLookup "standard_time" r with
      | some (PyVal.arr st) => E.standardize d ts st (smoothOf E sig)
      | _ => none
  | _ => none

/-- One iteration of the needed-signals loop: assign on success, pass on
exception (lines 564-576). -/
def ctStep (E : TEnv) (r : RecMap) (sig : String) : RecMap :=
  match tryResample E r sig with
  | some v => setKey sig (PyVal.arr v) r
  | none => r

/-- Lines 561-576: the needed-signals loop of change_timebase; each signal is
resampled onto the standard grid inside try/except.  The efit-profile
re-gridding of lines 577-585 is a separate, efit-only step not covered
here. -/
def change_timebase (E : TEnv) (sigs : List String) (r : RecMap) : RecMap :=
  sigs.foldl (ctStep E) r

/-- Lines 507-510: `record["standard_time"] = np.arange(tmin, tmax,
time_step)`. -/
def add_timebase (tmin tmax step : ℚ) (r : RecMap) : RecMap :=
  setKey "standard_time" (PyVal.arr (standard_times tmin tmax step)) r

/-- The key `nb_<beam><loc>_<sig>` used by add_nb_info. -/
def nbKey (beam : ℕ) (loc : String) (sig : String) : String :=
  "nb_" ++ toString beam ++ loc ++ "_" ++ sig

/-- `record[key].append(v)` for a list under construction; anything else is
inside a try/except in the script and leaves the record unchanged. -/
def nbAppend (key : String) (v : PyVal) (r : RecMap) : RecMap :=
  match fLookup key r with
  | some (PyVal.lstV xs) => setKey key (PyVal.lstV (xs ++ [v])) r
  | _ => r

/-- The beam/location pairs of lines 549-550, in loop order. -/
def beamLocs : List (ℕ × String) :=
  [30, 150, 210, 330].flatMap (fun b => [(b, "L"), (b, "R")])

/-- `record[nbKey beam loc "vinj_scalar"]["data"]` (line 559): succeeds only
on a fetched dict, whose data it returns; anything else raises. -/
def scalarFetch (r : RecMap) (beam : ℕ) (loc : String) : Option PyVal :=
  match fLookup (nbKey beam loc "vinj_scalar") r with
  | some (PyVal.dct d _) => some d
  | _ => none

/-- Lines 542-547, inside try/except: set nb_210_rtan or nb_150_tilt to its
fetched data, or to nan if the entry is missing, None, or has None data. -/
def rtStep (rr : RecMap) (sig : String) : RecMap :=
  match fLookup sig rr with
  | some (PyVal.dct PyVal.pynone _) => setKey sig PyVal.nanV rr
  | some (PyVal.dct d _) => setKey sig d rr
  | _ => setKey sig PyVal.nanV rr

/-- Lines 551-556, inside try/except: append one beam's resampled signal to
the accumulator list, or pass on any failure. -/
def nbResampleStep (E : TEnv) (sig : String) (rr : RecMap) (p : ℕ × String) :
    RecMap :=
  match fLookup (nbKey p.1 p.2 sig) rr, fLookup "standard_time" rr with
  | some (PyVal.dct (PyVal.arr d) ts), some (PyVal.arr st) =>
      match E.standardizeDefault d ts st with
      | some v => nbAppend ("nb_" ++ sig) (PyVal.arr v) rr
      | none => rr
  | _, _ => rr

/-- Line 559, not guarded by a try: append one beam's vinj_scalar data; a
missing or non-dict entry raises. -/
def vsStep (rr : RecMap) (p : ℕ × String) : Except Unit RecMap :=
  match scalarFetch rr p.1 p.2 with
  | some d => Except.ok (nbAppend "nb_vinj_scalar" d rr)
  | none => Except.error ()

/-- Lines 536-559, add_nb_info: initialise the four accumulator lists;
inside try/except set nb_210_rtan / nb_150_tilt to their data or nan (lines
542-547); inside try/except append each beam's resampled pinj/tinj/vinj
(lines 548-556); finally - outside any try - append each beam's
vinj_scalar data, where a missing or non-dict entry raises (lines
557-559). -/
def add_nb_info (E : TEnv) (r : RecMap) : Except Unit RecMap :=
  let r₁ := setKey "nb_pinj" (PyVal.lstV []) r
  let r₂ := setKey "nb_tinj" (PyVal.lstV []) r₁
  let r₃ := setKey "nb_vinj" (PyVal.lstV []) r₂
  let r₄ := setKey "nb_vinj_scalar" (PyVal.lstV []) r₃
  let r₅ := ["nb_210_rtan", "nb_150_tilt"].foldl rtStep r₄
  let r₆ := ["pinj", "tinj", "vinj"].foldl
    (fun rr sig => beamLocs.foldl (nbResampleStep E sig) rr) r₅
  beamLocs.foldlM vsStep r₆

/-! ### add_psin (lines 587-601): normalised flux with a guarded divisor -/

/-- The fetched inputs of add_psin, as functions of the time index (and grid
indices for psirz). -/
structure PsinInput where
  psirz_full : ℕ → ℕ → ℕ → ℚ
  ssimag : ℕ → ℚ
  ssibry : ℕ → ℚ

/-- Lines 590-593: `psi_norm_f = ssibry - ssimag`, with zero entries replaced
by 1. -/
def psi_norm_f (inp : PsinInput) (t : ℕ) : ℚ :=
  let d := inp.ssibry t - inp.ssimag t
  if d = 0 then 1 else d

/-- Lines 594-595, pointwise: `psirz = (psirz_full - ssimag) / psi_norm_f`,
then `psirz[problems] = 0`. -/
def add_psin (inp : PsinInput) (t i j : ℕ) : ℚ :=
  let v := (inp.psirz_full t i j - inp.ssimag t) / psi_norm_f inp t
  if inp.ssibry t - inp.ssimag t = 0 then 0 else v

/-! ### The crash check and the write loop (lines 793-816) -/

/-- A computed record as it reaches the write loop: the shot number, the
per-signal error dict (key to traceback), and the remaining keys. -/
structure ShotRecord where
  shot : ℤ
  errors : List (String × String)
  sigs : List (String × List ℚ)
deriving DecidableEq

/-- Is `pat` a prefix of `l`? -/
def prefixEq : List Char → List Char → Bool
  | [], _ => true
  | _ :: _, [] => false
  | a :: as, b :: bs => a = b && prefixEq as bs

/-- Python `pat in s`, substring containment on character lists. -/
def hasSubstr (pat : List Char) : List Char → Bool
  | [] => pat.isEmpty
  | c :: rest => prefixEq pat (c :: rest) || hasSubstr pat rest

/-- The acquisition-backend crash signature of line 796. -/
def crash_sig : String := "Failure to complete operation"

/-- Line 796: some error traceback of the record contains the crash
signature. -/
def recordCrashed (r : ShotRecord) : Bool :=
  r.errors.any (fun e => hasSubstr crash_sig.data e.2.data)

/-- `final_data.require_group(shot)` (line 810): keep an existing group,
create a missing one, fail on a dataset of that name. -/
def requireGroup (file : H5File) (k : String) : Except Unit H5File :=
  match fLookup k file with
  | some (H5Entry.grp _) => Except.ok file
  | some (H5Entry.ds _) => Except.error ()
  | none => Except.ok (setKey k (H5Entry.grp []) file)

/-- Lines 811-816: store one key of the record into the shot group, skipping
"shot" and "errors"; a pre-existing dataset of the same name is deleted
first. -/
def sigStep (gg : List (String × List ℚ)) (p : String × List ℚ) :
    List (String × List ℚ) :=
  if p.1 = "shot" ∨ p.1 = "errors" then gg else setKey p.1 p.2 gg

/-- Lines 809-816: write one record - require the shot group, then store
every key except "shot" and "errors", deleting any pre-existing dataset of
the same name first. -/
def writeShot (file : H5File) (r : ShotRecord) : Except Unit H5File := do
  let key := toString r.shot
  let f₁ ← requireGroup file key
  match fLookup key f₁ with
  | some (H5Entry.grp g) =>
      Except.ok (setKey key (H5Entry.grp (r.sigs.foldl sigStep g)) f₁)
  | _ => Except.error ()

/-- Lines 806-816: write every record of the batch. -/
def writeAll (file : H5File) (records : List ShotRecord) :
    Except Unit H5File :=
  records.foldlM writeShot file

/-- No dataset sits at this key of the file (a group or nothing may). -/
def noDsB (file : H5File) (k : String) : Bool :=
  match fLookup k file with
  | some (H5Entry.ds _) => false
  | _ => true

/-- Python `min` on a list (line 800). -/
def pyMin (l : List ℤ) : ℤ := l.foldl min (l.headD 0)

/-- The external pipeline-execution framework. -/
structure BatchEnv where
  /-- Modelled from the spec: for each batch of shots, the external
  pipeline-execution API computes one record per shot, with its errors. -/
  recordsFor : List ℤ → List ShotRecord

/-- Lines 787-816 per batch: compute the records; if any record carries the
crash signature, stop and return the `(min(all_shots), shots[0] - 1)` shot
range passed to the external relaunch helper submit_single_run (lines
799-804); otherwise write the batch and continue. -/
def processBatches (env : BatchEnv) (allShots : List ℤ) :
    List (List ℤ) → H5File → Except Unit (H5File × Option (ℤ × ℤ))
  | [], file => Except.ok (file, none)
  | shots :: rest, file =>
      let records := env.recordsFor shots
      if records.any recordCrashed then
        Except.ok (file, some (pyMin allShots, shots.headD 0 - 1))
      else do
        let f₂ ← writeAll file records
        processBatches env allShots rest f₂

/-- Writing a sequence of batches in order (the effect of the loop on the
file when no batch carries the crash signature). -/
def writeSeq (env : BatchEnv) : List (List ℤ) → H5File → Except Unit H5File
  | [], f => Except.ok f
  | b :: rest, f =>
      match writeAll f (env.recordsFor b) with
      | Except.ok f₂ => writeSeq env rest f₂
      | Except.error e => Except.error e

/-- The script end to end (preamble, overwrite pass, batch loop), with the
external fetch stages opaque in `env`. -/
def runScript (env : BatchEnv) (shots : List ℤ) (m : ℕ) (overwrite : Bool)
    (tmin tmax step : ℚ) (nxp : ℕ) (file : H5File) :
    Except Unit (H5File × Option (ℤ × ℤ)) := do
  let f₁ ← preamble tmin tmax step nxp file
  let f₂ := overwritePass overwrite (all_shots shots) f₁
  processBatches env (all_shots shots) (subshots shots m) f₂

/-- A concrete add_psin input: ssibry agrees with ssimag at time 0 only. -/
def inpW : PsinInput :=
  ⟨fun _ _ _ => 3, fun _ => 0, fun t => if t = 0 then 0 else 2⟩

/-- The number of top-level datasets of a file. -/
def dsCount (f : H5File) : ℕ :=
  (f.filter (fun p =>
    match p.2 with
    | H5Entry.ds _ => true
    | H5Entry.grp _ => false)).length

/-- A pre-existing file holding an unrelated top-level dataset. -/
def fileC : H5File := [("extra", H5Entry.ds [])]

/-- A pre-existing file whose spatial grid disagrees with the
configuration. -/
def fileM : H5File := [("spatial_coordinates", H5Entry.ds [])]

/-- A pre-existing file holding one shot group. -/
def fileG : H5File := [("163303", H5Entry.grp [])]

/-- A pipeline environment that computes no records. -/
def envTriv : BatchEnv := ⟨fun _ => []⟩

/-- A concrete record without the crash signature. -/
def recW : ShotRecord :=
  ⟨163303, [("efit01", "ValueError: bad fit")], [("x", [1]), ("y", [])]⟩

/-- A pipeline environment returning the one concrete record. -/
def envW : BatchEnv := ⟨fun _ => [recW]⟩

/-- A record whose errors carry the acquisition-backend crash signature. -/
def recCrash : ShotRecord :=
  ⟨8, [("sig1", "Traceback: Failure to complete operation at shot")], []⟩

/-- A pipeline environment where the first batch succeeds and the second
carries the crash signature. -/
def envC : BatchEnv :=
  ⟨fun shots =>
    if shots = [10, 9] then
      [⟨10, [], [("x", [1])]⟩, ⟨9, [], [("x", [1])]⟩]
    else [recCrash, ⟨7, [], []⟩]⟩

/-- A concrete configuration exercising every block of the needed-signals
list. -/
def cW : SigConfig :=
  ⟨[], [], [], [], [], [], ["p1"], ["efit01"], ["pres"], ["li"],
    true, true, true, true, true, ["temp"], ["density"], ["mtanh_1d"],
    ["z1"]⟩

/-- A concrete transform environment: resampling returns the data array. -/
def EW : TEnv := ⟨fun d _ _ _ => some d, fun d _ _ => some d, ["rotation"]⟩

/-- A concrete pipeline record with a standard time grid and one fetched
signal. -/
def rW : RecMap :=
  [("standard_time", PyVal.arr [0]),
    ("sig_full", PyVal.dct (PyVal.arr [1]) [2])]

/-- A concrete record carrying a well-formed vinj_scalar entry for every
beam. -/
def rNB : RecMap :=
  beamLocs.map (fun p =>
    (nbKey p.1 p.2 "vinj_scalar", PyVal.dct (PyVal.arr []) []))

/-! ## Theorems.  Association-list facts -/

theorem fLookup_append {β : Type} (k : String) (l₁ l₂ : List (String × β)) :
    fLookup k (l₁ ++ l₂) =
      match fLookup k l₁ with
      | some v => some v
      | none => fLookup k l₂ := by
  induction l₁ with
  | nil => rfl
  | cons p t ih =>
      obtain ⟨k₂, v⟩ := p
      by_cases h : k₂ = k <;> simp [fLookup, h, ih]

theorem fLookup_delKey_self {β : Type} (k : String) (l : List (String × β)) :
    fLookup k (delKey k l) = none := by
  induction l with
  | nil => rfl
  | cons p t ih =>
      obtain ⟨k₂, v⟩ := p
      by_cases h : k₂ = k <;> simp [delKey, fLookup, h, ih]

theorem fLookup_delKey_ne {β : Type} {k₂ k : String} (h : k₂ ≠ k)
    (l : List (String × β)) : fLookup k₂ (delKey k l) = fLookup k₂ l := by
  induction l with
  | nil => rfl
  | cons p t ih =>
      obtain ⟨k₃, v⟩ := p
      by_cases h₃ : k₃ = k
      · subst h₃
        simp [delKey, fLookup, Ne.symm h, ih]
      · by_cases h₄ : k₃ = k₂
        · subst h₄
          simp [delKey, fLookup, h₃, ih]
        · simp [delKey, fLookup, h₃, h₄, ih]

theorem fLookup_setKey_self {β : Type} (k : String) (v : β)
    (l : List (String × β)) : fLookup k (setKey k v l) = some v := by
  simp [setKey, fLookup_append, fLookup_delKey_self, fLookup]

theorem fLookup_setKey_ne {β : Type} {k₂ k : String} (h : k₂ ≠ k) (v : β)
    (l : List (String × β)) : fLookup k₂ (setKey k v l) = fLookup k₂ l := by
  simp [setKey, fLookup_append, fLookup_delKey_ne h, fLookup, Ne.symm h]
  cases fLookup k₂ l <;> simp

/-! ## Claim C9: the divide-by-zero guard of add_psin -/

/-- Claim C9: in add_psin the normalised flux is computed as
`(psirz_full - ssimag) / (ssibry - ssimag)` only where the denominator is
non-zero; every time index where ssibry equals ssimag has its denominator
replaced by 1 and its normalised output set to 0, so the divisor used is
never zero. -/
theorem add_psin_div_guard (inp : PsinInput) (t i j : ℕ) :
    psi_norm_f inp t ≠ 0 ∧
    (inp.ssibry t - inp.ssimag t ≠ 0 →
      add_psin inp t i j =
        (inp.psirz_full t i j - inp.ssimag t) /
          (inp.ssibry t - inp.ssimag t)) ∧
    (inp.ssibry t = inp.ssimag t →
      add_psin inp t i j = 0 ∧ psi_norm_f inp t = 1) := by
  unfold add_psin psi_norm_f
  by_cases h : inp.ssibry t - inp.ssimag t = 0
  · refine ⟨by simp [h], fun hne => absurd h hne, fun _ => by simp [h]⟩
  · refine ⟨by simp [h], fun _ => by simp [h], fun he => absurd ?_ h⟩
    rw [he, sub_self]

/-- Witness for claim C9 at a concrete input. -/
theorem add_psin_div_guard_witness :
    psi_norm_f inpW 0 = 1 ∧ add_psin inpW 0 0 0 = 0 ∧
      add_psin inpW 1 2 3 =
        (inpW.psirz_full 1 2 3 - inpW.ssimag 1) /
          (inpW.ssibry 1 - inpW.ssimag 1) := by
  refine ⟨?_, ?_, ?_⟩
  · exact ((add_psin_div_guard inpW 0 0 0).2.2 (by simp [inpW])).2
  · exact ((add_psin_div_guard inpW 0 0 0).2.2 (by simp [inpW])).1
  · exact (add_psin_div_guard inpW 1 2 3).2.1 (by simp [inpW])

/-! ## Claim C5: the batches partition the sorted shot list -/

theorem chunks_flatten {α : Type} (l : List α) (m : ℕ) (k : ℕ) :
    ((List.range k).map (fun i => (l.drop (i * m)).take m)).flatten =
      l.take (k * m) := by
  induction k with
  | zero => simp
  | succ k ih =>
      rw [List.range_succ, List.map_append, List.flatten_append, ih]
      simp [Nat.succ_mul, List.take_add]

theorem num_files_mul_ge (n m : ℕ) (hm : 0 < m) : n ≤ num_files n m * m := by
  unfold num_files
  by_cases h : n % m = 0
  · simp only [h, ne_eq, not_true_eq_false, if_false, add_zero]
    exact le_of_eq (Nat.div_mul_cancel (Nat.dvd_of_mod_eq_zero h)).symm
  · simp only [h, ne_eq, not_false_eq_true, if_true]
    have h₁ := Nat.div_add_mod n m
    have h₂ := Nat.mod_lt n hm
    have h₃ : (n / m + 1) * m = m * (n / m) + m := by ring
    omega

theorem num_files_eq_ceil (n m : ℕ) (hm : 0 < m) :
    num_files n m = (n + m - 1) / m := by
  unfold num_files
  by_cases h : n % m = 0
  · obtain ⟨q, rfl⟩ := Nat.dvd_of_mod_eq_zero h
    simp only [h, ne_eq, not_true_eq_false, if_false, add_zero]
    have h₁ : m * q + m - 1 = m * q + (m - 1) := by omega
    rw [h₁, Nat.mul_add_div hm, Nat.mul_div_cancel_left q hm,
      Nat.div_eq_of_lt (by omega), add_zero]
  · simp only [h, ne_eq, not_false_eq_true, if_true]
    have h₁ := Nat.div_add_mod n m
    have hr : 0 < n % m := Nat.pos_of_ne_zero h
    have hr₂ : n % m < m := Nat.mod_lt n hm
    have h₂ : n + m - 1 = m * (n / m) + (n % m + m - 1) := by omega
    rw [h₂, Nat.mul_add_div hm]
    have h₃ : (n % m + m - 1) / m = 1 :=
      Nat.div_eq_of_lt_le (by omega) (by omega)
    omega

/-- Claim C5: for a positive batch size, the subshots are
`ceil(n / max_shots_per_run)` consecutive chunks of the configured shot
list sorted in descending order, each of size at most the batch size; their
concatenation is the sorted list, every configured shot appears in the
batches with its original multiplicity, and for a duplicate-free
configuration the sorted list is strictly descending. -/
theorem subshots_partition (shots : List ℤ) (m : ℕ) (hm : 0 < m) :
    (subshots shots m).flatten = all_shots shots ∧
    (∀ b ∈ subshots shots m, b.length ≤ m) ∧
    (subshots shots m).length = (shots.length + m - 1) / m ∧
    (∀ x : ℤ, ((subshots shots m).flatten.count x = shots.count x)) ∧
    (shots.Nodup → List.Sorted (fun a b : ℤ => a > b) (all_shots shots)) := by
  have hperm := List.perm_insertionSort (fun a b : ℤ => a ≥ b) shots
  have hflat : (subshots shots m).flatten = all_shots shots := by
    unfold subshots
    rw [chunks_flatten]
    exact List.take_of_length_le (num_files_mul_ge _ m hm)
  refine ⟨hflat, ?_, ?_, ?_, ?_⟩
  · intro b hb
    unfold subshots at hb
    obtain ⟨i, _, rfl⟩ := List.mem_map.mp hb
    rw [List.length_take]
    exact inf_le_left
  · have hlen : (all_shots shots).length = shots.length := hperm.length_eq
    unfold subshots
    rw [List.length_map, List.length_range, num_files_eq_ceil _ m hm, hlen]
  · intro x
    rw [hflat]
    exact hperm.count_eq x
  · intro hnd
    have hsorted :=
      List.sorted_insertionSort (fun a b : ℤ => a ≥ b) shots
    have hnd₂ : (all_shots shots).Nodup := hperm.nodup_iff.mpr hnd
    exact List.Pairwise.imp (fun h => h.1.lt_of_ne (Ne.symm h.2))
      (List.Pairwise.and hsorted hnd₂)

/-- Witness for claim C5 at a concrete shot list and batch size. -/
theorem subshots_partition_witness :
    (subshots [7, 9, 10, 8] 3).flatten = all_shots [7, 9, 10, 8] ∧
      (subshots [7, 9, 10, 8] 3).length = (4 + 3 - 1) / 3 ∧
      List.Sorted (fun a b : ℤ => a > b) (all_shots [7, 9, 10, 8]) := by
  obtain ⟨h₁, _, h₃, _, h₅⟩ := subshots_partition [7, 9, 10, 8] 3 (by decide)
  exact ⟨h₁, h₃, h₅ (by decide)⟩

/-! ## String facts -/

theorem str_data_inj {a b : String} (h : a.data = b.data) : a = b := by
  cases a
  cases b
  exact congrArg String.mk h

theorem str_append_data (a b : String) : (a ++ b).data = a.data ++ b.data := by
  cases a
  cases b
  rfl

theorem str_assoc (a b c : String) : a ++ b ++ c = a ++ (b ++ c) :=
  str_data_inj (by simp [str_append_data])

theorem str_prefix_cancel {p x y : String} (h : p ++ x = p ++ y) : x = y := by
  have h₂ := congrArg String.data h
  rw [str_append_data, str_append_data] at h₂
  exact str_data_inj (List.append_cancel_left h₂)

theorem str_suffix_cancel {p x y : String} (h : x ++ p = y ++ p) : x = y := by
  have h₂ := congrArg String.data h
  rw [str_append_data, str_append_data] at h₂
  exact str_data_inj (List.append_cancel_right h₂)

theorem head_append (a b : String) (c0 : Char) (h : a.data.head? = some c0) :
    (a ++ b).data.head? = some c0 := by
  rw [str_append_data]
  cases hd : a.data with
  | nil => rw [hd] at h; cases h
  | cons x t =>
      rw [hd] at h
      simpa using h

theorem str_head_ne {a b : String} (h : a.data.head? ≠ b.data.head?) :
    a ≠ b :=
  fun e => h (by rw [e])

theorem notMem_of_head {u : String} {L : List String} (c0 : Char)
    (hu : u.data.head? = some c0)
    (hL : ∀ y ∈ L, y.data.head? ≠ some c0) : u ∉ L :=
  fun hm => (hL u hm) hu

theorem append_ne_of_rev {a b : List Char} (l₁ l₂ : List Char) (i : ℕ)
    (h₁ : i < a.length) (h₂ : i < b.length)
    (h : a.reverse[i]? ≠ b.reverse[i]?) : l₁ ++ a ≠ l₂ ++ b := by
  intro e
  apply h
  have e₂ := congrArg List.reverse e
  rw [List.reverse_append, List.reverse_append] at e₂
  have e₃ := congrArg (fun l => l[i]?) e₂
  simpa [List.getElem?_append, h₁, h₂] using e₃

theorem str_append_ne_of_rev (x y a b : String) (i : ℕ)
    (h₁ : i < a.data.length) (h₂ : i < b.data.length)
    (h : a.data.reverse[i]? ≠ b.data.reverse[i]?) : x ++ a ≠ y ++ b := by
  intro e
  have e₂ := congrArg String.data e
  rw [str_append_data, str_append_data] at e₂
  exact append_ne_of_rev x.data y.data i h₁ h₂ h e₂

/-! ## Digits: `str(shot)` never collides with the shared dataset names -/

theorem toDigitsCore_chars (b : ℕ) (hb : 0 < b) :
    ∀ (f n : ℕ) (acc : List Char) (c : Char),
      c ∈ Nat.toDigitsCore b f n acc →
        (∃ k, k < b ∧ c = Nat.digitChar k) ∨ c ∈ acc := by
  intro f
  induction f with
  | zero => intro n acc c hc; exact Or.inr hc
  | succ f ih =>
      intro n acc c hc
      rw [Nat.toDigitsCore] at hc
      by_cases h : n / b = 0
      · simp only [h, if_true] at hc
        rcases List.mem_cons.mp hc with rfl | h₂
        · exact Or.inl ⟨n % b, Nat.mod_lt n hb, rfl⟩
        · exact Or.inr h₂
      · simp only [h, if_false] at hc
        rcases ih (n / b) (Nat.digitChar (n % b) :: acc) c hc with h₁ | h₂
        · exact Or.inl h₁
        · rcases List.mem_cons.mp h₂ with rfl | h₃
          · exact Or.inl ⟨n % b, Nat.mod_lt n hb, rfl⟩
          · exact Or.inr h₃

theorem nat_repr_chars (n : ℕ) :
    ∀ c ∈ (Nat.repr n).data, ∃ k, k < 10 ∧ c = Nat.digitChar k := by
  intro c hc
  have h : (Nat.repr n).data = Nat.toDigitsCore 10 (n + 1) n [] := rfl
  rw [h] at hc
  rcases toDigitsCore_chars 10 (by decide) (n + 1) n [] c hc with h₁ | h₂
  · exact h₁
  · cases h₂

theorem digitChar_not_alpha (k : ℕ) (hk : k < 10) :
    Nat.digitChar k ≠ 't' ∧ Nat.digitChar k ≠ 's' := by
  interval_cases k <;> exact ⟨by decide, by decide⟩

theorem toString_int_ne (i : ℤ) :
    toString i ≠ "times" ∧ toString i ≠ "spatial_coordinates" := by
  cases i with
  | ofNat m =>
      constructor <;> intro h
      · have hd := congrArg String.data h
        have h₂ : 't' ∈ (Nat.repr m).data := by
          rw [show (Nat.repr m).data = (toString (Int.ofNat m)).data from rfl,
            hd]
          decide
        obtain ⟨k, hk, hkc⟩ := nat_repr_chars m 't' h₂
        exact (digitChar_not_alpha k hk).1 hkc.symm
      · have hd := congrArg String.data h
        have h₂ : 's' ∈ (Nat.repr m).data := by
          rw [show (Nat.repr m).data = (toString (Int.ofNat m)).data from rfl,
            hd]
          decide
        obtain ⟨k, hk, hkc⟩ := nat_repr_chars m 's' h₂
        exact (digitChar_not_alpha k hk).2 hkc.symm
  | negSucc m =>
      constructor <;> intro h
      · have h₂ : (toString (Int.negSucc m)).data.head? = some '-' :=
          head_append "-" (Nat.repr (m + 1)) '-' rfl
        rw [h] at h₂
        exact absurd h₂ (by decide)
      · have h₂ : (toString (Int.negSucc m)).data.head? = some '-' :=
          head_append "-" (Nat.repr (m + 1)) '-' rfl
        rw [h] at h₂
        exact absurd h₂ (by decide)

/-! ## Claim C10: the overwrite pass deletes only the configured shot
groups -/

theorem delShotStep_lookup_ne (f : H5File) (s : ℤ) (k : String)
    (h : k ≠ toString s) : fLookup k (delShotStep f s) = fLookup k f := by
  unfold delShotStep
  split
  · exact fLookup_delKey_ne h f
  · rfl

theorem foldl_delShot_frame (shots : List ℤ) (f : H5File) (k : String)
    (h : k ∉ shots.map (fun s => toString s)) :
    fLookup k (shots.foldl delShotStep f) = fLookup k f := by
  induction shots generalizing f with
  | nil => rfl
  | cons a t ih =>
      have h₁ : k ≠ toString a := fun e => h (by simp [e])
      have h₂ : k ∉ t.map (fun s => toString s) := fun e => h (by simp [e])
      rw [List.foldl_cons, ih (delShotStep f a) h₂,
        delShotStep_lookup_ne f a k h₁]

theorem foldl_delShot_none_or (shots : List ℤ) (f : H5File) (k : String) :
    fLookup k (shots.foldl delShotStep f) = fLookup k f ∨
      fLookup k (shots.foldl delShotStep f) = none := by
  induction shots generalizing f with
  | nil => exact Or.inl rfl
  | cons a t ih =>
      rw [List.foldl_cons]
      rcases ih (delShotStep f a) with h | h
      · rw [h]
        unfold delShotStep
        split
        · by_cases hk : k = toString a
          · subst hk
            exact Or.inr (fLookup_delKey_self _ _)
          · exact Or.inl (fLookup_delKey_ne hk f)
        · exact Or.inl rfl
      · exact Or.inr h

theorem foldl_delShot_deleted (shots : List ℤ) (f : H5File) (s : ℤ)
    (hs : s ∈ shots) :
    fLookup (toString s) (shots.foldl delShotStep f) = none := by
  induction shots generalizing f with
  | nil => cases hs
  | cons a t ih =>
      rw [List.foldl_cons]
      rcases List.mem_cons.mp hs with rfl | hmem
      · have hstep : fLookup (toString s) (delShotStep f s) = none := by
          unfold delShotStep
          split
          · exact fLookup_delKey_self _ _
          · rename_i hns
            exact Option.not_isSome_iff_eq_none.mp hns
        rcases foldl_delShot_none_or t (delShotStep f s) (toString s) with
          h | h
        · rw [h, hstep]
        · exact h
      · exact ih (delShotStep f a) hmem

/-- Claim C10: with overwrite_shots enabled, the pre-pass removes exactly
the entries named `str(shot)` for configured shots; every key outside that
name set - in particular the shared "times" and "spatial_coordinates"
datasets - is left unchanged. -/
theorem overwrite_pass_frame (shots : List ℤ) (file : H5File) :
    (∀ k, k ∉ shots.map (fun s => toString s) →
        fLookup k (overwritePass true shots file) = fLookup k file) ∧
    (∀ s ∈ shots, fLookup (toString s) (overwritePass true shots file) =
        none) ∧
    fLookup "times" (overwritePass true shots file) =
      fLookup "times" file ∧
    fLookup "spatial_coordinates" (overwritePass true shots file) =
      fLookup "spatial_coordinates" file := by
  have hframe : ∀ k, k ∉ shots.map (fun s => toString s) →
      fLookup k (overwritePass true shots file) = fLookup k file := by
    intro k hk
    unfold overwritePass
    simp only [if_true]
    exact foldl_delShot_frame shots file k hk
  refine ⟨hframe, ?_, ?_, ?_⟩
  · intro s hs
    unfold overwritePass
    simp only [if_true]
    exact foldl_delShot_deleted shots file s hs
  · refine hframe "times" (fun hmem => ?_)
    obtain ⟨s, _, he⟩ := List.mem_map.mp hmem
    exact (toString_int_ne s).1 he
  · refine hframe "spatial_coordinates" (fun hmem => ?_)
    obtain ⟨s, _, he⟩ := List.mem_map.mp hmem
    exact (toString_int_ne s).2 he

/-- Witness for claim C10 at a concrete file and shot list. -/
theorem overwrite_pass_frame_witness :
    fLookup "keep" (overwritePass true [5] fileOW) =
        fLookup "keep" fileOW ∧
      fLookup "5" (overwritePass true [5] fileOW) = none ∧
      fLookup "times" (overwritePass true [5] fileOW) =
        fLookup "times" fileOW := by
  obtain ⟨h₁, h₂, h₃, _⟩ := overwrite_pass_frame [5] fileOW
  exact ⟨h₁ "keep" (by decide), h₂ 5 (by decide), h₃⟩

/-! ## Preamble facts (claims C2 and C8) -/

theorem preambleSpatial_preserves (sx : List ℚ) (file f₂ : H5File)
    (h : preambleSpatial sx file = Except.ok f₂) :
    ∀ k v, fLookup k file = some v → fLookup k f₂ = some v := by
  intro k v hv
  unfold preambleSpatial at h
  split at h
  · split at h
    · injection h with h₂
      subst h₂
      exact hv
    · exact Except.noConfusion h
  · exact Except.noConfusion h
  · rename_i heq
    injection h with h₂
    subst h₂
    by_cases hk : k = "spatial_coordinates"
    · subst hk
      rw [hv] at heq
      cases heq
    · rw [fLookup_setKey_ne hk]
      exact hv

theorem preambleSpatial_sets (sx : List ℚ) (file f₂ : H5File)
    (h : preambleSpatial sx file = Except.ok f₂) :
    fLookup "spatial_coordinates" f₂ = some (H5Entry.ds sx) := by
  unfold preambleSpatial at h
  split at h
  · rename_i w heq
    split at h
    · rename_i hwsx
      injection h with h₂
      subst h₂
      rw [heq, hwsx]
    · exact Except.noConfusion h
  · exact Except.noConfusion h
  · injection h with h₂
    subst h₂
    exact fLookup_setKey_self _ _ _

theorem preambleSpatial_mismatch (sx : List ℚ) (file : H5File) (w : List ℚ)
    (hw : fLookup "spatial_coordinates" file = some (H5Entry.ds w))
    (hne : w ≠ sx) : preambleSpatial sx file = Except.error () := by
  unfold preambleSpatial
  rw [hw]
  simp [hne]

/-- Claim C8: an existing "times" dataset differing from the configured
arange, or an existing "spatial_coordinates" dataset differing from the
configured linspace, makes the preamble (and hence the whole script, before
any shot data is fetched or written) abort with an AssertionError; and a
successful preamble never overwrites any existing entry of the file. -/
theorem preamble_mismatch_aborts (env : BatchEnv) (shots : List ℤ) (m : ℕ)
    (ov : Bool) (tmin tmax step : ℚ) (nxp : ℕ) (file : H5File) :
    (((∃ v, fLookup "times" file = some (H5Entry.ds v) ∧
          v ≠ standard_times tmin tmax step) ∨
        (∃ w, fLookup "spatial_coordinates" file = some (H5Entry.ds w) ∧
          w ≠ standard_x nxp)) →
      preamble tmin tmax step nxp file = Except.error () ∧
      runScript env shots m ov tmin tmax step nxp file = Except.error ()) ∧
    (∀ f₂, preamble tmin tmax step nxp file = Except.ok f₂ →
      ∀ k v, fLookup k file = some v → fLookup k f₂ = some v) := by
  constructor
  · intro hmis
    have herr : preamble tmin tmax step nxp file = Except.error () := by
      unfold preamble
      cases ht : fLookup "times" file with
      | none =>
          rcases hmis with ⟨v, hv, _⟩ | ⟨w, hw, hne⟩
          · rw [ht] at hv
            cases hv
          · exact preambleSpatial_mismatch _ _ w
              (by rw [fLookup_setKey_ne (by decide)]; exact hw) hne
      | some e =>
          cases e with
          | ds v =>
              by_cases hveq : v = standard_times tmin tmax step
              · simp only [hveq, if_true]
                rcases hmis with ⟨v₂, hv₂, hne₂⟩ | ⟨w, hw, hne⟩
                · rw [ht] at hv₂
                  injection hv₂ with h₃
                  injection h₃ with h₄
                  exact absurd (h₄.symm.trans hveq) hne₂
                · exact preambleSpatial_mismatch _ _ w hw hne
              · simp [hveq]
          | grp g => rfl
    refine ⟨herr, ?_⟩
    unfold runScript
    rw [herr]
    rfl
  · intro f₂ hok k v hv
    unfold preamble at hok
    cases ht : fLookup "times" file with
    | none =>
        rw [ht] at hok
        refine preambleSpatial_preserves _ _ _ hok k v ?_
        by_cases hk : k = "times"
        · subst hk
          rw [hv] at ht
          cases ht
        · rw [fLookup_setKey_ne hk]
          exact hv
    | some e =>
        rw [ht] at hok
        cases e with
        | ds w =>
            dsimp only at hok
            by_cases hw : w = standard_times tmin tmax step
            · rw [if_pos hw] at hok
              exact preambleSpatial_preserves _ _ _ hok k v hv
            · rw [if_neg hw] at hok
              exact Except.noConfusion hok
        | grp g => exact Except.noConfusion hok

/-- Witness for claim C8: a concrete mismatching file aborts the script; on
a concrete clean file, existing entries survive the preamble. -/
theorem preamble_mismatch_aborts_witness :
    (preamble 0 2 1 1 fileM = Except.error () ∧
      runScript envTriv [3] 1 false 0 2 1 1 fileM = Except.error ()) ∧
    fLookup "163303"
        [("163303", H5Entry.grp []), ("times", H5Entry.ds (standard_times 0 2 1)),
          ("spatial_coordinates", H5Entry.ds (standard_x 1))] =
      some (H5Entry.grp []) := by
  constructor
  · exact (preamble_mismatch_aborts envTriv [3] 1 false 0 2 1 1 fileM).1
      (Or.inr ⟨[], rfl, by decide⟩)
  · exact (preamble_mismatch_aborts envTriv [3] 1 false 0 2 1 1 fileG).2
      _ rfl "163303" (H5Entry.grp []) rfl

/-- Counterexample to claim C2 as stated: on a pre-existing output file
holding an unrelated top-level dataset, the preamble succeeds and the
resulting file has three top-level datasets, not exactly two. -/
theorem preamble_not_exactly_two :
    preamble 0 1 1 1 fileC =
      Except.ok [("extra", H5Entry.ds []),
        ("times", H5Entry.ds (standard_times 0 1 1)),
        ("spatial_coordinates", H5Entry.ds (standard_x 1))] ∧
    dsCount [("extra", H5Entry.ds []),
      ("times", H5Entry.ds (standard_times 0 1 1)),
      ("spatial_coordinates", H5Entry.ds (standard_x 1))] = 3 :=
  ⟨rfl, rfl⟩

/-- Claim C2 (amended): after a successful preamble the file contains the
shared dataset "times" equal to `numpy.arange(tmin, tmax, time_step)` and
the shared dataset "spatial_coordinates" equal to
`numpy.linspace(0, 1, num_x_points)`, both derived only from the
configuration; when the output file is new (empty), these are exactly its
two entries. -/
theorem preamble_shared_grids (tmin tmax step : ℚ) (nxp : ℕ)
    (file f₂ : H5File) (h : preamble tmin tmax step nxp file = Except.ok f₂) :
    fLookup "times" f₂ =
        some (H5Entry.ds (standard_times tmin tmax step)) ∧
      fLookup "spatial_coordinates" f₂ =
        some (H5Entry.ds (standard_x nxp)) ∧
      (file = [] →
        f₂ = [("times", H5Entry.ds (standard_times tmin tmax step)),
          ("spatial_coordinates", H5Entry.ds (standard_x nxp))]) := by
  refine ⟨?_, ?_, ?_⟩
  · unfold preamble at h
    cases ht : fLookup "times" file with
    | none =>
        rw [ht] at h
        exact preambleSpatial_preserves _ _ _ h "times" _
          (fLookup_setKey_self _ _ _)
    | some e =>
        rw [ht] at h
        cases e with
        | ds w =>
            dsimp only at h
            by_cases hw : w = standard_times tmin tmax step
            · rw [if_pos hw] at h
              subst hw
              exact preambleSpatial_preserves _ _ _ h "times" _ ht
            · rw [if_neg hw] at h
              exact Except.noConfusion h
        | grp g => exact Except.noConfusion h
  · unfold preamble at h
    cases ht : fLookup "times" file with
    | none =>
        rw [ht] at h
        exact preambleSpatial_sets _ _ _ h
    | some e =>
        rw [ht] at h
        cases e with
        | ds w =>
            dsimp only at h
            by_cases hw : w = standard_times tmin tmax step
            · rw [if_pos hw] at h
              exact preambleSpatial_sets _ _ _ h
            · rw [if_neg hw] at h
              exact Except.noConfusion h
        | grp g => exact Except.noConfusion h
  · intro hfe
    subst hfe
    have h₀ : preamble tmin tmax step nxp [] =
        Except.ok [("times", H5Entry.ds (standard_times tmin tmax step)),
          ("spatial_coordinates", H5Entry.ds (standard_x nxp))] := rfl
    rw [h₀] at h
    injection h with h₂
    exact h₂.symm

/-- Witness for claim C2 (amended) on a new (empty) output file. -/
theorem preamble_shared_grids_witness :
    fLookup "times"
        [("times", H5Entry.ds (standard_times 0 1 1)),
          ("spatial_coordinates", H5Entry.ds (standard_x 1))] =
      some (H5Entry.ds (standard_times 0 1 1)) ∧
    fLookup "spatial_coordinates"
        [("times", H5Entry.ds (standard_times 0 1 1)),
          ("spatial_coordinates", H5Entry.ds (standard_x 1))] =
      some (H5Entry.ds (standard_x 1)) := by
  obtain ⟨h₁, h₂, _⟩ := preamble_shared_grids 0 1 1 1 []
    [("times", H5Entry.ds (standard_times 0 1 1)),
      ("spatial_coordinates", H5Entry.ds (standard_x 1))] rfl
  exact ⟨h₁, h₂⟩

/-! ## The write loop (claim C7) -/

theorem foldl_sigStep_frame (sigs : List (String × List ℚ))
    (g : List (String × List ℚ)) (k : String)
    (hk : k ∉ sigs.map Prod.fst) :
    fLookup k (sigs.foldl sigStep g) = fLookup k g := by
  induction sigs generalizing g with
  | nil => rfl
  | cons q t ih =>
      have h₁ : k ≠ q.1 := fun e => hk (by simp [e])
      have h₂ : k ∉ t.map Prod.fst := fun e => hk (by simp [e])
      rw [List.foldl_cons, ih _ h₂]
      unfold sigStep
      split
      · rfl
      · exact fLookup_setKey_ne h₁ _ _

theorem foldl_sigStep_mem (sigs : List (String × List ℚ))
    (g : List (String × List ℚ)) (p : String × List ℚ) (hp : p ∈ sigs)
    (hnd : (sigs.map Prod.fst).Nodup) (h₁ : p.1 ≠ "shot")
    (h₂ : p.1 ≠ "errors") :
    fLookup p.1 (sigs.foldl sigStep g) = some p.2 := by
  induction sigs generalizing g with
  | nil => cases hp
  | cons q t ih =>
      rw [List.foldl_cons]
      rcases List.mem_cons.mp hp with rfl | hmem
      · have hq : sigStep g p = setKey p.1 p.2 g := by
          unfold sigStep
          rw [if_neg]
          simp [h₁, h₂]
        have hnotin : p.1 ∉ t.map Prod.fst := by
          rw [List.map_cons] at hnd
          exact (List.nodup_cons.mp hnd).1
        rw [hq, foldl_sigStep_frame t _ _ hnotin, fLookup_setKey_self]
      · rw [List.map_cons] at hnd
        exact ih _ hmem (List.nodup_cons.mp hnd).2

theorem except_ok_bind {α β : Type} (x : α) (k : α → Except Unit β) :
    ((Except.ok x : Except Unit α) >>= k) = k x := rfl

theorem writeShot_eq_none (file : H5File) (r : ShotRecord)
    (hl : fLookup (toString r.shot) file = none) :
    writeShot file r = Except.ok (setKey (toString r.shot)
      (H5Entry.grp (r.sigs.foldl sigStep []))
      (setKey (toString r.shot) (H5Entry.grp []) file)) := by
  unfold writeShot requireGroup
  dsimp only
  rw [hl]
  dsimp only
  rw [except_ok_bind, fLookup_setKey_self]

theorem writeShot_eq_grp (file : H5File) (r : ShotRecord)
    (g₀ : List (String × List ℚ))
    (hl : fLookup (toString r.shot) file = some (H5Entry.grp g₀)) :
    writeShot file r = Except.ok (setKey (toString r.shot)
      (H5Entry.grp (r.sigs.foldl sigStep g₀)) file) := by
  unfold writeShot requireGroup
  dsimp only
  rw [hl]
  dsimp only
  rw [except_ok_bind, hl]

theorem writeShot_spec (file : H5File) (r : ShotRecord)
    (h : noDsB file (toString r.shot) = true) :
    ∃ f₂ g, writeShot file r = Except.ok f₂ ∧
      fLookup (toString r.shot) f₂ =
        some (H5Entry.grp (r.sigs.foldl sigStep g)) ∧
      (∀ k, k ≠ toString r.shot → fLookup k f₂ = fLookup k file) := by
  cases hl : fLookup (toString r.shot) file with
  | none =>
      refine ⟨setKey (toString r.shot)
          (H5Entry.grp (r.sigs.foldl sigStep []))
          (setKey (toString r.shot) (H5Entry.grp []) file), [],
        writeShot_eq_none file r hl, ?_, ?_⟩
      · exact fLookup_setKey_self _ _ _
      · intro k hk
        rw [fLookup_setKey_ne hk, fLookup_setKey_ne hk]
  | some e =>
      cases e with
      | ds xs =>
          exfalso
          unfold noDsB at h
          rw [hl] at h
          exact Bool.noConfusion h
      | grp g₀ =>
          refine ⟨setKey (toString r.shot)
              (H5Entry.grp (r.sigs.foldl sigStep g₀)) file, g₀,
            writeShot_eq_grp file r g₀ hl, ?_, ?_⟩
          · exact fLookup_setKey_self _ _ _
          · intro k hk
            rw [fLookup_setKey_ne hk]

theorem writeAll_cons (file : H5File) (r : ShotRecord)
    (t : List ShotRecord) :
    writeAll file (r :: t) =
      (writeShot file r).bind (fun f₂ => writeAll f₂ t) := by
  cases hw : writeShot file r with
  | ok f₂ =>
      show (writeShot file r).bind _ = _
      rw [hw]
      rfl
  | error e =>
      show (writeShot file r).bind _ = _
      rw [hw]
      rfl

theorem writeAll_spec (records : List ShotRecord) (file : H5File)
    (hds : ∀ r ∈ records, noDsB file (toString r.shot) = true)
    (hnds : (records.map (fun r => toString r.shot)).Nodup)
    (hsk : ∀ r ∈ records, (r.sigs.map Prod.fst).Nodup) :
    ∃ f₂, writeAll file records = Except.ok f₂ ∧
      (∀ k, k ∉ records.map (fun r => toString r.shot) →
        fLookup k f₂ = fLookup k file) ∧
      ∀ r ∈ records, ∃ g,
        fLookup (toString r.shot) f₂ = some (H5Entry.grp g) ∧
        ∀ p ∈ r.sigs, p.1 ≠ "shot" → p.1 ≠ "errors" →
          fLookup p.1 g = some p.2 := by
  induction records generalizing file with
  | nil =>
      exact ⟨file, rfl, fun k _ => rfl, fun r hr => absurd hr
        (List.not_mem_nil r)⟩
  | cons r t ih =>
      obtain ⟨f₂, g₀, hw, hg, hframe⟩ :=
        writeShot_spec file r (hds r (List.mem_cons_self r t))
      have hkey : toString r.shot ∉ t.map (fun r₂ => toString r₂.shot) := by
        rw [List.map_cons] at hnds
        exact (List.nodup_cons.mp hnds).1
      have hds₂ : ∀ r₂ ∈ t, noDsB f₂ (toString r₂.shot) = true := by
        intro r₂ h₂
        have hne : toString r₂.shot ≠ toString r.shot := by
          intro e
          exact hkey (e ▸ List.mem_map_of_mem (fun r₃ => toString r₃.shot) h₂)
        unfold noDsB
        rw [hframe _ hne]
        exact hds r₂ (List.mem_cons_of_mem r h₂)
      have hnds₂ : (t.map (fun r₂ => toString r₂.shot)).Nodup := by
        rw [List.map_cons] at hnds
        exact (List.nodup_cons.mp hnds).2
      obtain ⟨f₃, hwAll, hframe₂, hpost⟩ := ih f₂ hds₂ hnds₂
        (fun r₂ h₂ => hsk r₂ (List.mem_cons_of_mem r h₂))
      refine ⟨f₃, ?_, ?_, ?_⟩
      · rw [writeAll_cons, hw]
        exact hwAll
      · intro k hk
        have h₁ : k ≠ toString r.shot := fun e => hk (by simp [e])
        have h₂ : k ∉ t.map (fun r₂ => toString r₂.shot) :=
          fun e => hk (by simp [e])
        rw [hframe₂ k h₂, hframe k h₁]
      · intro r₂ hr₂
        rcases List.mem_cons.mp hr₂ with rfl | hmem
        · refine ⟨r₂.sigs.foldl sigStep g₀, ?_, ?_⟩
          · rw [hframe₂ _ hkey]
            exact hg
          · intro p hp h₁ h₂
            exact foldl_sigStep_mem _ _ p hp
              (hsk r₂ (List.mem_cons_self r₂ t)) h₁ h₂
        · exact hpost r₂ hmem

theorem processBatches_nil (env : BatchEnv) (allShots : List ℤ)
    (file : H5File) :
    processBatches env allShots [] file = Except.ok (file, none) := rfl

theorem processBatches_cons (env : BatchEnv) (allShots : List ℤ)
    (shots : List ℤ) (rest : List (List ℤ)) (file : H5File) :
    processBatches env allShots (shots :: rest) file =
      if (env.recordsFor shots).any recordCrashed then
        Except.ok (file, some (pyMin allShots, shots.headD 0 - 1))
      else
        (writeAll file (env.recordsFor shots)).bind
          (fun f₂ => processBatches env allShots rest f₂) := rfl

theorem except_bind_ok {α : Type} (x : α) (k : α → Except Unit α) :
    (Except.ok x : Except Unit α).bind k = k x := rfl

/-- Claim C7: a batch without the crash signature is written in full - the
loop continues past it, and for every computed record a group named
`str(record.shot)` exists in the output file with every key of the record
except "shot" and "errors" stored (replacing any pre-existing dataset of
the same name) as a dataset of that group. -/
theorem batch_write_spec (env : BatchEnv) (allShots : List ℤ)
    (b : List ℤ) (file : H5File)
    (hnc : (env.recordsFor b).any recordCrashed = false)
    (hds : ∀ r ∈ env.recordsFor b, noDsB file (toString r.shot) = true)
    (hnds : ((env.recordsFor b).map (fun r => toString r.shot)).Nodup)
    (hsk : ∀ r ∈ env.recordsFor b, (r.sigs.map Prod.fst).Nodup) :
    ∃ f₂, processBatches env allShots [b] file = Except.ok (f₂, none) ∧
      ∀ r ∈ env.recordsFor b, ∃ g,
        fLookup (toString r.shot) f₂ = some (H5Entry.grp g) ∧
        ∀ p ∈ r.sigs, p.1 ≠ "shot" → p.1 ≠ "errors" →
          fLookup p.1 g = some p.2 := by
  obtain ⟨f₂, hwAll, _, hpost⟩ := writeAll_spec (env.recordsFor b) file
    hds hnds hsk
  refine ⟨f₂, ?_, hpost⟩
  rw [processBatches_cons,
    if_neg (by rw [hnc]; exact Bool.false_ne_true), hwAll]
  rfl

/-- Witness for claim C7 at a concrete environment, batch and file. -/
theorem batch_write_spec_witness :
    (processBatches envW [163303] [[163303]] []).isOk = true ∧
      (∀ f₂, processBatches envW [163303] [[163303]] [] =
          Except.ok (f₂, none) →
        ∃ g, fLookup "163303" f₂ = some (H5Entry.grp g)) := by
  obtain ⟨f₂, hrun, hpost⟩ := batch_write_spec envW [163303] [163303] []
    (by decide) (by intro r hr; fin_cases hr; decide)
    (by decide) (by intro r hr; fin_cases hr; decide)
  obtain ⟨g, hg, _⟩ := hpost recW (by decide)
  constructor
  · rw [hrun]
    rfl
  · intro f₃ hrun₂
    rw [hrun] at hrun₂
    injection hrun₂ with h₂
    have h₃ : f₂ = f₃ := congrArg Prod.fst h₂
    exact ⟨g, h₃ ▸ hg⟩

/-! ## The crash check and relaunch arguments (claim C1) -/

/-- Counterexample to claim C1 as stated: with batches [10,9] then [8,7]
and the crash signature appearing in the second batch, the script calls
the relaunch helper with upper end 7 = shots[0] - 1.  The last completed
shot is 9 (only groups "10" and "9" were written), yet 7 differs from 9;
and shot 8 was never written (not completed) yet lies outside the
relaunched range, whose upper end is 7 < 8. -/
theorem crash_relaunch_counterexample :
    processBatches envC [10, 9, 8, 7] [[10, 9], [8, 7]] [] =
      Except.ok ([("10", H5Entry.grp [("x", [1])]),
        ("9", H5Entry.grp [("x", [1])])], some (7, 7)) ∧
    fLookup "8" [("10", H5Entry.grp [("x", [1])]),
      ("9", H5Entry.grp [("x", [1])])] = none ∧
    ¬ ((8 : ℤ) ≤ 7) ∧ (7 : ℤ) ≠ 9 :=
  ⟨rfl, rfl, by decide, by decide⟩

/-- Claim C1 (amended): when a batch's records carry the crash signature
and every earlier batch was written successfully, the script invokes the
job-relaunch helper submit_single_run with the shot range from
`min(all_shots)` to one less than the first (largest) shot of the crashed
batch - so the range excludes every fully written shot and also the first
shot of the crashed batch itself - leaves the file as written so far, and
stops processing further batches. -/
theorem crash_relaunch (env : BatchEnv) (allShots : List ℤ)
    (pre post : List (List ℤ)) (b : List ℤ) (file f₁ : H5File)
    (hpre : ∀ batch ∈ pre, (env.recordsFor batch).any recordCrashed = false)
    (hw : writeSeq env pre file = Except.ok f₁)
    (hb : (env.recordsFor b).any recordCrashed = true) :
    processBatches env allShots (pre ++ b :: post) file =
      Except.ok (f₁, some (pyMin allShots, b.headD 0 - 1)) := by
  induction pre generalizing file with
  | nil =>
      injection hw with h₂
      subst h₂
      show processBatches env allShots (b :: post) file = _
      rw [processBatches_cons, if_pos hb]
  | cons a t ih =>
      unfold writeSeq at hw
      cases hwa : writeAll file (env.recordsFor a) with
      | error e =>
          rw [hwa] at hw
          exact Except.noConfusion hw
      | ok f₂ =>
          rw [hwa] at hw
          have hna := hpre a (List.mem_cons_self a t)
          have hstep : processBatches env allShots
              ((a :: t) ++ b :: post) file =
              processBatches env allShots (t ++ b :: post) f₂ := by
            show processBatches env allShots (a :: (t ++ b :: post)) file = _
            rw [processBatches_cons,
              if_neg (by rw [hna]; exact Bool.false_ne_true), hwa]
            rfl
          rw [hstep]
          exact ih f₂ (fun batch h₂ => hpre batch
            (List.mem_cons_of_mem a h₂)) hw

/-- Witness for claim C1 (amended) at the concrete crashing environment. -/
theorem crash_relaunch_witness :
    processBatches envC [10, 9, 8, 7] [[10, 9], [8, 7]] [] =
      Except.ok ([("10", H5Entry.grp [("x", [1])]),
        ("9", H5Entry.grp [("x", [1])])],
        some (pyMin [10, 9, 8, 7], [8, 7].headD 0 - 1)) := by
  exact crash_relaunch envC [10, 9, 8, 7] [[10, 9]] [] [8, 7] []
    [("10", H5Entry.grp [("x", [1])]), ("9", H5Entry.grp [("x", [1])])]
    (by intro batch hb₂; fin_cases hb₂; rfl) rfl rfl

/-! ## change_timebase (claims C3 and C4) -/

theorem ctStep_frame (E : TEnv) (r : RecMap) (sig k : String)
    (hk : k ≠ sig) : fLookup k (ctStep E r sig) = fLookup k r := by
  unfold ctStep
  split
  · exact fLookup_setKey_ne hk _ _
  · rfl

theorem ctStep_none (E : TEnv) (r : RecMap) (s : String)
    (h : tryResample E r s = none) : ctStep E r s = r := by
  unfold ctStep
  rw [h]

theorem change_timebase_invariant (E : TEnv) (name : String)
    (d ts st v : List ℚ)
    (hres : E.standardize d ts st (smoothOf E name) = some v) :
    ∀ (sigs : List String), (name ++ "_full") ∉ sigs →
      "standard_time" ∉ sigs → ∀ (r : RecMap),
      fLookup (name ++ "_full") r = some (PyVal.dct (PyVal.arr d) ts) →
      fLookup "standard_time" r = some (PyVal.arr st) →
      ((fLookup (name ++ "_full") (change_timebase E sigs r) =
          some (PyVal.dct (PyVal.arr d) ts) ∧
        fLookup "standard_time" (change_timebase E sigs r) =
          some (PyVal.arr st)) ∧
      ((name ∈ sigs ∨ fLookup name r = some (PyVal.arr v)) →
        fLookup name (change_timebase E sigs r) = some (PyVal.arr v))) := by
  intro sigs
  induction sigs with
  | nil =>
      intro _ _ r hf hs
      exact ⟨⟨hf, hs⟩, fun hc => by
        rcases hc with hc | hc
        · cases hc
        · exact hc⟩
  | cons a t ih =>
      intro hnf hnt r hf hs
      have hanf : a ≠ name ++ "_full" := fun e => hnf (by simp [e])
      have hant : a ≠ "standard_time" := fun e => hnt (by simp [e])
      have hnf₂ : (name ++ "_full") ∉ t := fun e => hnf (by simp [e])
      have hnt₂ : "standard_time" ∉ t := fun e => hnt (by simp [e])
      have hf₂ : fLookup (name ++ "_full") (ctStep E r a) =
          some (PyVal.dct (PyVal.arr d) ts) := by
        rw [ctStep_frame E r a _ (Ne.symm hanf)]
        exact hf
      have hs₂ : fLookup "standard_time" (ctStep E r a) =
          some (PyVal.arr st) := by
        rw [ctStep_frame E r a _ (Ne.symm hant)]
        exact hs
      have hct : change_timebase E (a :: t) r =
          change_timebase E t (ctStep E r a) := rfl
      refine ⟨?_, ?_⟩
      · rw [hct]
        exact (ih hnf₂ hnt₂ (ctStep E r a) hf₂ hs₂).1
      · intro hc
        rw [hct]
        by_cases ha : a = name
        · subst ha
          have hstep : ctStep E r a = setKey a (PyVal.arr v) r := by
            unfold ctStep tryResample
            rw [hf, hs]
            dsimp only
            rw [hres]
          refine (ih hnf₂ hnt₂ (ctStep E r a) hf₂ hs₂).2 (Or.inr ?_)
          rw [hstep]
          exact fLookup_setKey_self _ _ _
        · rcases hc with hc | hc
          · rcases List.mem_cons.mp hc with rfl | hmem
            · exact absurd rfl ha
            · exact (ih hnf₂ hnt₂ (ctStep E r a) hf₂ hs₂).2 (Or.inl hmem)
          · refine (ih hnf₂ hnt₂ (ctStep E r a) hf₂ hs₂).2 (Or.inr ?_)
            rw [ctStep_frame E r a name (fun e => ha e.symm)]
            exact hc

/-- Claim C4: for every name in the needed-signals list whose fetched
`name_full` entry resamples successfully, the change_timebase loop sets
`record[name]` to the fetched data time-aligned onto the common
standard_time grid via standardize_time, with the statistical mode as the
smoothing function when the casefolded name is modal and the mean
otherwise; the standard_time grid itself is the arange written by
add_timebase. -/
theorem change_timebase_resample (E : TEnv) (sigs : List String)
    (r : RecMap) (name : String) (d ts st v : List ℚ)
    (hmem : name ∈ sigs)
    (hfull : fLookup (name ++ "_full") r =
      some (PyVal.dct (PyVal.arr d) ts))
    (hst : fLookup "standard_time" r = some (PyVal.arr st))
    (hres : E.standardize d ts st
        (if casefold name ∈ E.modal then Smooth.mode else Smooth.mean) =
      some v)
    (hnf : (name ++ "_full") ∉ sigs) (hnt : "standard_time" ∉ sigs) :
    fLookup name (change_timebase E sigs r) = some (PyVal.arr v) ∧
    ∀ (tmin tmax step : ℚ) (r₀ : RecMap),
      fLookup "standard_time" (add_timebase tmin tmax step r₀) =
        some (PyVal.arr (standard_times tmin tmax step)) := by
  constructor
  · have hres₂ : E.standardize d ts st (smoothOf E name) = some v := hres
    exact (change_timebase_invariant E name d ts st v hres₂ sigs hnf hnt r
      hfull hst).2 (Or.inl hmem)
  · intro tmin tmax step r₀
    exact fLookup_setKey_self _ _ _

/-- Witness for claim C4 at a concrete record and environment. -/
theorem change_timebase_resample_witness :
    fLookup "sig" (change_timebase EW ["sig"] rW) =
      some (PyVal.arr [1]) := by
  exact (change_timebase_resample EW ["sig"] rW "sig" [1] [2] [0] [1]
    (by decide) rfl rfl rfl (by decide) (by decide)).1

/-! ## Exception suppression (claim C3) -/

theorem nbAppend_frame (key : String) (v : PyVal) (r : RecMap) (k : String)
    (hk : k ≠ key) : fLookup k (nbAppend key v r) = fLookup k r := by
  unfold nbAppend
  split
  · exact fLookup_setKey_ne hk _ _
  · rfl

theorem scalarFetch_congr (r₂ r : RecMap) (b : ℕ) (l : String)
    (h : fLookup (nbKey b l "vinj_scalar") r₂ =
      fLookup (nbKey b l "vinj_scalar") r) :
    scalarFetch r₂ b l = scalarFetch r b l := by
  unfold scalarFetch
  rw [h]

theorem foldlM_vsStep_ok (ps : List (ℕ × String)) :
    ∀ (rr : RecMap),
      (∀ p ∈ ps, (scalarFetch rr p.1 p.2).isSome = true) →
      (∀ p ∈ ps, nbKey p.1 p.2 "vinj_scalar" ≠ "nb_vinj_scalar") →
      ∃ rr₂, List.foldlM vsStep rr ps = Except.ok rr₂ := by
  induction ps with
  | nil => exact fun rr _ _ => ⟨rr, rfl⟩
  | cons p t ih =>
      intro rr hfetch hkeys
      obtain ⟨d, hd⟩ := Option.isSome_iff_exists.mp
        (hfetch p (List.mem_cons_self p t))
      have hstep : vsStep rr p = Except.ok (nbAppend "nb_vinj_scalar" d rr) := by
        unfold vsStep
        rw [hd]
      have hf₂ : ∀ p₂ ∈ t,
          (scalarFetch (nbAppend "nb_vinj_scalar" d rr) p₂.1 p₂.2).isSome =
            true := by
        intro p₂ h₂
        rw [scalarFetch_congr _ _ _ _
          (nbAppend_frame _ _ _ _ (hkeys p₂ (List.mem_cons_of_mem p h₂)))]
        exact hfetch p₂ (List.mem_cons_of_mem p h₂)
      obtain ⟨rr₂, hrr⟩ := ih (nbAppend "nb_vinj_scalar" d rr) hf₂
        (fun p₂ h₂ => hkeys p₂ (List.mem_cons_of_mem p h₂))
      refine ⟨rr₂, ?_⟩
      show vsStep rr p >>= _ = _
      rw [hstep, except_ok_bind]
      exact hrr

theorem rtStep_frame (rr : RecMap) (sig k : String) (hk : k ≠ sig) :
    fLookup k (rtStep rr sig) = fLookup k rr := by
  unfold rtStep
  split
  · exact fLookup_setKey_ne hk _ _
  · exact fLookup_setKey_ne hk _ _
  · exact fLookup_setKey_ne hk _ _

theorem foldl_rtStep_frame (sigs : List String) (rr : RecMap) (k : String)
    (hk : ∀ s ∈ sigs, k ≠ s) :
    fLookup k (sigs.foldl rtStep rr) = fLookup k rr := by
  induction sigs generalizing rr with
  | nil => rfl
  | cons a t ih =>
      rw [List.foldl_cons, ih (rtStep rr a)
        (fun s hs => hk s (List.mem_cons_of_mem a hs)),
        rtStep_frame rr a k (hk a (List.mem_cons_self a t))]

theorem nbResampleStep_frame (E : TEnv) (sig : String) (rr : RecMap)
    (p : ℕ × String) (k : String) (hk : k ≠ "nb_" ++ sig) :
    fLookup k (nbResampleStep E sig rr p) = fLookup k rr := by
  unfold nbResampleStep
  split
  · split
    · exact nbAppend_frame _ _ _ _ hk
    · rfl
  · rfl

theorem foldl_nbRes_frame (E : TEnv) (sig : String) (ps : List (ℕ × String))
    (rr : RecMap) (k : String) (hk : k ≠ "nb_" ++ sig) :
    fLookup k (ps.foldl (nbResampleStep E sig) rr) = fLookup k rr := by
  induction ps generalizing rr with
  | nil => rfl
  | cons p t ih =>
      rw [List.foldl_cons, ih (nbResampleStep E sig rr p),
        nbResampleStep_frame E sig rr p k hk]

theorem foldl_nbResOuter_frame (E : TEnv) (sigs : List String)
    (rr : RecMap) (k : String) (hk : ∀ s ∈ sigs, k ≠ "nb_" ++ s) :
    fLookup k (sigs.foldl
      (fun rr₂ sig => beamLocs.foldl (nbResampleStep E sig) rr₂) rr) =
      fLookup k rr := by
  induction sigs generalizing rr with
  | nil => rfl
  | cons a t ih =>
      rw [List.foldl_cons, ih _
        (fun s hs => hk s (List.mem_cons_of_mem a hs)),
        foldl_nbRes_frame E a beamLocs rr k (hk a (List.mem_cons_self a t))]

theorem r6_lookup (E : TEnv) (r : RecMap) (k : String)
    (h₁ : k ≠ "nb_pinj") (h₂ : k ≠ "nb_tinj") (h₃ : k ≠ "nb_vinj")
    (h₄ : k ≠ "nb_vinj_scalar") (h₅ : k ≠ "nb_210_rtan")
    (h₆ : k ≠ "nb_150_tilt") :
    fLookup k (["pinj", "tinj", "vinj"].foldl
      (fun rr sig => beamLocs.foldl (nbResampleStep E sig) rr)
      (["nb_210_rtan", "nb_150_tilt"].foldl rtStep
        (setKey "nb_vinj_scalar" (PyVal.lstV [])
          (setKey "nb_vinj" (PyVal.lstV [])
            (setKey "nb_tinj" (PyVal.lstV [])
              (setKey "nb_pinj" (PyVal.lstV []) r)))))) = fLookup k r := by
  rw [foldl_nbResOuter_frame E _ _ k ?hout,
    foldl_rtStep_frame _ _ k ?hrt,
    fLookup_setKey_ne h₄, fLookup_setKey_ne h₃, fLookup_setKey_ne h₂,
    fLookup_setKey_ne h₁]
  case hout =>
    intro s hs
    fin_cases hs
    · rw [show ("nb_" ++ "pinj" : String) = "nb_pinj" from rfl]
      exact h₁
    · rw [show ("nb_" ++ "tinj" : String) = "nb_tinj" from rfl]
      exact h₂
    · rw [show ("nb_" ++ "vinj" : String) = "nb_vinj" from rfl]
      exact h₃
  case hrt =>
    intro s hs
    fin_cases hs
    · exact h₅
    · exact h₆

theorem add_nb_info_ok (E : TEnv) (r : RecMap)
    (h₄ : ∀ p ∈ beamLocs, (scalarFetch r p.1 p.2).isSome = true) :
    ∃ r₂, add_nb_info E r = Except.ok r₂ := by
  have hineq : ∀ p ∈ beamLocs,
      nbKey p.1 p.2 "vinj_scalar" ≠ "nb_pinj" ∧
      nbKey p.1 p.2 "vinj_scalar" ≠ "nb_tinj" ∧
      nbKey p.1 p.2 "vinj_scalar" ≠ "nb_vinj" ∧
      nbKey p.1 p.2 "vinj_scalar" ≠ "nb_vinj_scalar" ∧
      nbKey p.1 p.2 "vinj_scalar" ≠ "nb_210_rtan" ∧
      nbKey p.1 p.2 "vinj_scalar" ≠ "nb_150_tilt" := by decide
  unfold add_nb_info
  dsimp only
  apply foldlM_vsStep_ok beamLocs _ ?_ (fun p hp => (hineq p hp).2.2.2.1)
  intro p hp
  obtain ⟨i₁, i₂, i₃, i₄, i₅, i₆⟩ := hineq p hp
  rw [scalarFetch_congr _ _ _ _ (r6_lookup E r _ i₁ i₂ i₃ i₄ i₅ i₆)]
  exact h₄ p hp

/-- Claim C3: a per-signal transform failure is suppressed - a signal whose
resample raises inside the change_timebase loop is simply skipped while
every remaining signal is still processed; add_nb_info finishes despite any
failures in its guarded per-beam blocks (its unguarded vinj_scalar reads
being well-formed); and the record is still written to the output file. -/
theorem per_signal_failures_suppressed (E : TEnv) (xs ys : List String)
    (s : String) (r r₂ : RecMap) (file : H5File) (rec : ShotRecord)
    (h₁ : tryResample E (change_timebase E xs r) s = none)
    (h₂ : ∀ p ∈ beamLocs, (scalarFetch r₂ p.1 p.2).isSome = true)
    (h₃ : noDsB file (toString rec.shot) = true) :
    change_timebase E (xs ++ s :: ys) r =
      change_timebase E ys (change_timebase E xs r) ∧
    (∃ r₃, add_nb_info E r₂ = Except.ok r₃) ∧
    (∃ f₂ g, writeShot file rec = Except.ok f₂ ∧
      fLookup (toString rec.shot) f₂ = some (H5Entry.grp g)) := by
  refine ⟨?_, add_nb_info_ok E r₂ h₂, ?_⟩
  · have hsplit : change_timebase E (xs ++ s :: ys) r =
        change_timebase E ys (ctStep E (change_timebase E xs r) s) := by
      unfold change_timebase
      rw [List.foldl_append]
      rfl
    rw [hsplit, ctStep_none E _ s h₁]
  · obtain ⟨f₂, g, hw, hg, _⟩ := writeShot_spec file rec h₃
    exact ⟨f₂, _, hw, hg⟩

/-- Witness for claim C3 at concrete records, file and environment. -/
theorem per_signal_failures_suppressed_witness :
    change_timebase EW (["a"] ++ "bad" :: ["c"]) rW =
      change_timebase EW ["c"] (change_timebase EW ["a"] rW) ∧
    (add_nb_info EW rNB).isOk = true ∧
    (writeShot [] recW).isOk = true := by
  obtain ⟨hA, ⟨r₃, hB⟩, ⟨f₂, g, hC, _⟩⟩ :=
    per_signal_failures_suppressed EW ["a"] ["c"] "bad" rW rNB [] recW
      rfl (by decide) (by decide)
  refine ⟨hA, ?_, ?_⟩
  · rw [hB]
    rfl
  · rw [hC]
    rfl

/-! ## The needed-signals list (claim C6) -/

theorem ne_of_heads (u e : String) (c₁ c₂ : Char)
    (h₁ : u.data.head? = some c₁) (h₂ : e.data.head? = some c₂)
    (hne : c₁ ≠ c₂) : u ≠ e := by
  intro heq
  rw [heq, h₂] at h₁
  injection h₁ with h₃
  exact hne h₃.symm

theorem notMem_ite_lit (u : String) (b : Bool) (L : List String) (c0 : Char)
    (hu : u.data.head? = some c0)
    (hL : ∀ y ∈ L, y.data.head? ≠ some c0) :
    u ∉ (if b then L else []) := by
  split
  · exact notMem_of_head c0 hu hL
  · exact List.not_mem_nil u

theorem mem_needed_cer (c : SigConfig) (x : String) (hx : x ∈ cerSigs c) :
    x ∈ needed_sigs c := by
  unfold needed_sigs
  exact List.mem_append_left _ (List.mem_append_left _
    (List.mem_append_left _ (List.mem_append_left _
    (List.mem_append_left _ (List.mem_append_left _
    (List.mem_append_right _ hx))))))

theorem mem_needed_thomson (c : SigConfig) (x : String)
    (hx : x ∈ thomsonSigs c) : x ∈ needed_sigs c := by
  unfold needed_sigs
  exact List.mem_append_left _ (List.mem_append_left _
    (List.mem_append_left _ (List.mem_append_left _
    (List.mem_append_left _ (List.mem_append_right _ hx)))))

theorem mem_needed_aot (c : SigConfig) (x : String)
    (hx : x ∈ aotRhoSigs c) : x ∈ needed_sigs c := by
  unfold needed_sigs
  exact List.mem_append_left _ (List.mem_append_left _
    (List.mem_append_left _ (List.mem_append_left _
    (List.mem_append_left _ (List.mem_append_left _
    (List.mem_append_left _ (List.mem_append_left _
    (List.mem_append_left _ (List.mem_append_left _
    (List.mem_append_right _ hx))))))))))

theorem mem_needed_iff (c : SigConfig) (u : String) :
    u ∈ needed_sigs c ↔
      u ∈ baseSigs c ∨ u ∈ aotRhoSigs c ∨ u ∈ efitSigs c ∨
      u ∈ psirzSigs c ∨ u ∈ rhovnSigs c ∨ u ∈ cerSigs c ∨
      u ∈ thomsonSigs c ∨ u ∈ radSigs c ∨ u ∈ echSigs c ∨
      u ∈ nbSigs c ∨ u ∈ trialSigs c ∨ u ∈ zipfitSigs c := by
  unfold needed_sigs
  simp only [List.mem_append, or_assoc]

theorem head2 (p q r : String) (c0 : Char) (h : p.data.head? = some c0) :
    ((p ++ q) ++ r).data.head? = some c0 :=
  head_append _ _ c0 (head_append _ _ c0 h)

theorem head3 (p q r w : String) (c0 : Char) (h : p.data.head? = some c0) :
    (((p ++ q) ++ r) ++ w).data.head? = some c0 :=
  head_append _ _ c0 (head2 p q r c0 h)

theorem head_of_cer_pre (s x : String) :
    (("cer_" ++ s) ++ x).data.head? = some 'c' :=
  head2 "cer_" s x 'c' rfl

theorem uncName_not_cerSigs (c : SigConfig) (s : String)
    (hcer : ∀ s₂ ∈ c.cer_sig_names, s₂ ≠ s ++ "_uncertainty") :
    ("cer_" ++ s ++ "_uncertainty_raw_1d") ∉ cerSigs c := by
  intro hmem
  unfold cerSigs at hmem
  obtain ⟨s₂, hs₂, hx⟩ := List.mem_flatMap.mp hmem
  simp only [List.mem_cons, List.not_mem_nil, or_false] at hx
  rcases hx with hx | hx | hx
  · rw [str_assoc, str_assoc] at hx
    have h₁ := str_prefix_cancel hx
    rw [show ("_uncertainty_raw_1d" : String) =
        "_uncertainty" ++ "_raw_1d" from by decide, ← str_assoc] at h₁
    exact hcer s₂ hs₂ (str_suffix_cancel h₁).symm
  · rw [str_assoc, str_assoc] at hx
    have h₁ := str_prefix_cancel hx
    exact str_append_ne_of_rev s s₂ "_uncertainty_raw_1d" "_psi_raw_1d" 7
      (by decide) (by decide) (by decide) h₁
  · rw [str_assoc, str_assoc] at hx
    have h₁ := str_prefix_cancel hx
    exact str_append_ne_of_rev s s₂ "_uncertainty_raw_1d" "_r_raw_1d" 7
      (by decide) (by decide) (by decide) h₁

theorem uncName_not_trialSigs (c : SigConfig) (s : String)
    (htrial : ∀ s₂ ∈ c.cer_sig_names, ∀ tf ∈ c.trial_fits,
      s₂ ++ "_" ++ tf ≠ s ++ "_uncertainty_raw_1d") :
    ("cer_" ++ s ++ "_uncertainty_raw_1d") ∉ trialSigs c := by
  intro hmem
  unfold trialSigs at hmem
  obtain ⟨tf, htf, hx⟩ := List.mem_flatMap.mp hmem
  rcases List.mem_append.mp hx with hx | hx
  · obtain ⟨s₂, hs₂, he⟩ := List.mem_map.mp hx
    rw [str_assoc, str_assoc, str_assoc] at he
    have h₁ := str_prefix_cancel he.symm
    exact htrial s₂ hs₂ tf htf (by rw [str_assoc]; exact h₁.symm)
  · obtain ⟨t₂, ht₂, he⟩ := List.mem_map.mp hx
    exact ne_of_heads _ _ 'c' 't' (head_of_cer_pre s _)
      (head3 "thomson_" t₂ "_" tf 't' rfl) (by decide) he.symm

theorem uncName_not_zipfit (c : SigConfig) (s : String) :
    ("cer_" ++ s ++ "_uncertainty_raw_1d") ∉ zipfitSigs c := by
  intro hmem
  unfold zipfitSigs at hmem
  rcases List.mem_append.mp hmem with hx | hx
  · obtain ⟨z, hz, he⟩ := List.mem_map.mp hx
    exact ne_of_heads _ _ 'c' 'z' (head_of_cer_pre s _)
      (head2 "zipfit_" z "_rho" 'z' rfl) (by decide) he.symm
  · obtain ⟨z, hz, he⟩ := List.mem_map.mp hx
    exact ne_of_heads _ _ 'c' 'z' (head_of_cer_pre s _)
      (head2 "zipfit_" z "_psi" 'z' rfl) (by decide) he.symm

theorem uncName_not_thomson (c : SigConfig) (s : String) :
    ("cer_" ++ s ++ "_uncertainty_raw_1d") ∉ thomsonSigs c := by
  intro hmem
  unfold thomsonSigs at hmem
  obtain ⟨t₂, ht₂, hx⟩ := List.mem_flatMap.mp hmem
  simp only [List.mem_cons, List.not_mem_nil, or_false] at hx
  rcases hx with hx | hx | hx <;>
    exact ne_of_heads _ _ 'c' 't' (head_of_cer_pre s _)
      (head2 "thomson_" t₂ _ 't' rfl) (by decide) hx

/-- Claim C6: the needed-signals list holds, for every configured CER name
s, the entries cer_s_raw_1d, cer_s_psi_raw_1d and cer_s_r_raw_1d but no
cer_s_uncertainty_raw_1d entry; for every configured Thomson name t the
entries thomson_t_raw_1d, thomson_t_uncertainty_raw_1d and
thomson_t_psi_raw_1d; and aot_prof_rho exactly when AOT profile signals
are configured.  The no-collision hypotheses rule out configurations whose
free-form name lists manufacture the very same strings. -/
theorem needed_sigs_spec (c : SigConfig) (s t : String)
    (hbase : ("cer_" ++ s ++ "_uncertainty_raw_1d") ∉ baseSigs c)
    (hefit : ∀ e ∈ c.efit_types,
      ∀ b ∈ c.efit_profile_sig_names ++ c.efit_scalar_sig_names,
        b ++ "_" ++ e ≠ "cer_" ++ s ++ "_uncertainty_raw_1d" ∧
        b ++ "_" ++ e ≠ "aot_prof_rho")
    (hcer : ∀ s₂ ∈ c.cer_sig_names, s₂ ≠ s ++ "_uncertainty")
    (htrial : ∀ s₂ ∈ c.cer_sig_names, ∀ tf ∈ c.trial_fits,
      s₂ ++ "_" ++ tf ≠ s ++ "_uncertainty_raw_1d")
    (haot : "aot_prof_rho" ∉ baseSigs c) :
    (s ∈ c.cer_sig_names →
      ("cer_" ++ s ++ "_raw_1d") ∈ needed_sigs c ∧
      ("cer_" ++ s ++ "_psi_raw_1d") ∈ needed_sigs c ∧
      ("cer_" ++ s ++ "_r_raw_1d") ∈ needed_sigs c) ∧
    (t ∈ c.thomson_sig_names →
      ("thomson_" ++ t ++ "_raw_1d") ∈ needed_sigs c ∧
      ("thomson_" ++ t ++ "_uncertainty_raw_1d") ∈ needed_sigs c ∧
      ("thomson_" ++ t ++ "_psi_raw_1d") ∈ needed_sigs c) ∧
    ("aot_prof_rho" ∈ needed_sigs c ↔ c.aot_prof_sig_names ≠ []) ∧
    ("cer_" ++ s ++ "_uncertainty_raw_1d") ∉ needed_sigs c := by
  have huhead : ("cer_" ++ s ++ "_uncertainty_raw_1d").data.head? =
      some 'c' := head_of_cer_pre s _
  have hahead : ("aot_prof_rho" : String).data.head? = some 'a' := rfl
  refine ⟨?_, ?_, ⟨?_, ?_⟩, ?_⟩
  · intro hs
    refine ⟨?_, ?_, ?_⟩ <;>
      exact mem_needed_cer c _ (List.mem_flatMap.mpr ⟨s, hs, by simp⟩)
  · intro ht
    refine ⟨?_, ?_, ?_⟩ <;>
      exact mem_needed_thomson c _ (List.mem_flatMap.mpr ⟨t, ht, by simp⟩)
  · intro hmem
    intro hae
    rcases (mem_needed_iff c _).mp hmem with h | h | h | h | h | h | h | h |
      h | h | h | h
    · exact haot h
    · unfold aotRhoSigs at h
      rw [hae] at h
      simp at h
    · obtain ⟨e, he, hx⟩ := List.mem_flatMap.mp h
      rcases List.mem_append.mp hx with hx | hx <;>
        obtain ⟨b, hb, hbe⟩ := List.mem_map.mp hx
      · exact (hefit e he b (List.mem_append_left _ hb)).2 hbe
      · exact (hefit e he b (List.mem_append_right _ hb)).2 hbe
    · exact notMem_ite_lit _ _ _ 'a' hahead (by decide) h
    · exact notMem_ite_lit _ _ _ 'a' hahead (by decide) h
    · obtain ⟨s₂, hs₂, hx⟩ := List.mem_flatMap.mp h
      simp only [List.mem_cons, List.not_mem_nil, or_false] at hx
      rcases hx with hx | hx | hx <;>
        exact ne_of_heads _ _ 'a' 'c' hahead (head_of_cer_pre s₂ _)
          (by decide) hx
    · obtain ⟨t₂, ht₂, hx⟩ := List.mem_flatMap.mp h
      simp only [List.mem_cons, List.not_mem_nil, or_false] at hx
      rcases hx with hx | hx | hx <;>
        exact ne_of_heads _ _ 'a' 't' hahead
          (head2 "thomson_" t₂ _ 't' rfl) (by decide) hx
    · exact notMem_ite_lit _ _ _ 'a' hahead (by decide) h
    · exact notMem_ite_lit _ _ _ 'a' hahead (by decide) h
    · exact notMem_ite_lit _ _ _ 'a' hahead (by decide) h
    · obtain ⟨tf, htf, hx⟩ := List.mem_flatMap.mp h
      rcases List.mem_append.mp hx with hx | hx <;>
        obtain ⟨b, hb, hbe⟩ := List.mem_map.mp hx
      · exact ne_of_heads _ _ 'a' 'c' hahead
          (head3 "cer_" b "_" tf 'c' rfl) (by decide) hbe.symm
      · exact ne_of_heads _ _ 'a' 't' hahead
          (head3 "thomson_" b "_" tf 't' rfl) (by decide) hbe.symm
    · unfold zipfitSigs at h
      rcases List.mem_append.mp h with hx | hx
      · obtain ⟨z, hz, he⟩ := List.mem_map.mp hx
        exact ne_of_heads _ _ 'a' 'z' hahead
          (head2 "zipfit_" z "_rho" 'z' rfl) (by decide) he.symm
      · obtain ⟨z, hz, he⟩ := List.mem_map.mp hx
        exact ne_of_heads _ _ 'a' 'z' hahead
          (head2 "zipfit_" z "_psi" 'z' rfl) (by decide) he.symm
  · intro hne
    have hlen : c.aot_prof_sig_names.length > 0 :=
      List.length_pos.mpr hne
    apply mem_needed_aot
    unfold aotRhoSigs
    rw [if_pos hlen]
    exact List.mem_cons_self _ _
  · intro hmem
    rcases (mem_needed_iff c _).mp hmem with h | h | h | h | h | h | h | h |
      h | h | h | h
    · exact hbase h
    · unfold aotRhoSigs at h
      split at h
      · simp only [List.mem_cons, List.not_mem_nil, or_false] at h
        exact ne_of_heads _ "aot_prof_rho" 'c' 'a' huhead rfl (by decide) h
      · exact List.not_mem_nil _ h
    · obtain ⟨e, he, hx⟩ := List.mem_flatMap.mp h
      rcases List.mem_append.mp hx with hx | hx <;>
        obtain ⟨b, hb, hbe⟩ := List.mem_map.mp hx
      · exact (hefit e he b (List.mem_append_left _ hb)).1 hbe
      · exact (hefit e he b (List.mem_append_right _ hb)).1 hbe
    · exact notMem_ite_lit _ _ _ 'c' huhead (by decide) h
    · exact notMem_ite_lit _ _ _ 'c' huhead (by decide) h
    · exact uncName_not_cerSigs c s hcer h
    · exact uncName_not_thomson c s h
    · exact notMem_ite_lit _ _ _ 'c' huhead (by decide) h
    · exact notMem_ite_lit _ _ _ 'c' huhead (by decide) h
    · exact notMem_ite_lit _ _ _ 'c' huhead (by decide) h
    · exact uncName_not_trialSigs c s htrial h
    · exact uncName_not_zipfit c s h

/-- Witness for claim C6 at a concrete configuration. -/
theorem needed_sigs_spec_witness :
    ("cer_" ++ "temp" ++ "_raw_1d") ∈ needed_sigs cW ∧
    ("thomson_" ++ "density" ++ "_uncertainty_raw_1d") ∈ needed_sigs cW ∧
    "aot_prof_rho" ∈ needed_sigs cW ∧
    ("cer_" ++ "temp" ++ "_uncertainty_raw_1d") ∉ needed_sigs cW := by
  obtain ⟨h₁, h₂, h₃, h₄⟩ := needed_sigs_spec cW "temp" "density"
    (by decide) (by decide) (by decide) (by decide) (by decide)
  exact ⟨(h₁ (by decide)).1, (h₂ (by decide)).2.1, h₃.mpr (by decide), h₄⟩

end DBMaker
